import Mathlib

/-!
Shallow embedding of the module-loading and dynamic-linking core of the
enigma VM (`src/module.rs`), together with proofs about its behaviour.

The in-scope source is `Module`, `MFA`, `Lambda`, `Module::process_exports`,
`load_module` and `finish_loading_modules`.  The collaborators that the
source only calls into (`ExportsTable`, the module registry with
`parse_module`/`add_module`, and `bif::is_bif`) are not part of the given
source tree; they are modelled from the specification, each marked
`Modelled from the spec:` in its doc comment.

Modelling conventions:
* `u32` atom ids, arities and offsets carry no arithmetic in this code,
  only equality tests, so they are embedded as `Nat`.
* Rust `HashMap` lookup via the `Index` operator (`funs[&key]`), which
  panics when the key is absent, is embedded as an `Option`-valued
  computation: `none` models the panic.
* The fields `literals`, `literal_heap`, `instructions` and `lines` of
  `Module` have types owned by external crates (`Term`, `Heap`,
  `Instruction`, `FuncInfo`) and are never read by the loading logic
  verified here; they are omitted from the embedded record.
-/

namespace Enigma

/-- Rust: `pub struct MFA(pub u32, pub u32, pub u32)` — a positional tuple
struct.  As a key of the exports table the components are
(module atom, function atom, arity); the `exports` vector of a `Module`
reuses the same type with components (function atom, arity, label). -/
structure MFA where
  c0 : Nat
  c1 : Nat
  c2 : Nat
deriving DecidableEq, Repr

/-- Rust: `pub struct Lambda` with fields name, arity, offset, index,
nfree, ouniq (all `u32`). -/
structure Lambda where
  name : Nat
  arity : Nat
  offset : Nat
  index : Nat
  nfree : Nat
  ouniq : Nat
deriving DecidableEq, Repr

/-- Rust: `pub struct Module`.  `funs: HashMap<(u32, u32), u32>` is embedded
as an association list from (function atom, arity) to offset; lookups take
the first matching binding, which agrees with the hash map on any list
whose keys are distinct (a hash map cannot hold duplicate keys).  The
fields of external type (literals, literal_heap, instructions, lines) are
omitted — see the module comment. -/
structure Module where
  imports : List MFA
  exports : List MFA
  lambdas : List Lambda
  funs : List ((Nat × Nat) × Nat)
  name : Nat
  on_load : Option Nat
deriving DecidableEq, Repr

/-- Lookup in the embedded `funs` map; `funs[&key]` in the source panics
when this returns `none`. -/
def lookupFuns (funs : List ((Nat × Nat) × Nat)) (key : Nat × Nat) : Option Nat :=
  match funs with
  | [] => none
  | b :: rest => if b.fst = key then some b.snd else lookupFuns rest key

/-- Rust: `InstrPtr { module: *const Module, ptr: u32 }` (crate
`instr_ptr`); its construction in `process_exports` shows the two fields.
The raw module pointer is embedded as the module value itself. -/
structure InstrPtr where
  module : Module
  ptr : Nat
deriving DecidableEq, Repr

/-- Modelled from the spec: the Exports Table, "the single global map from
MFA to entry point".  Embedded as an association list read through
`resolve`, which returns the most recent binding. -/
abbrev ExportsTable := List (MFA × InstrPtr)

/-- Modelled from the spec: `register(mfa, entry_point)`: inserts or
overwrites.  Prepending the new binding makes it the one `resolve`
returns, which is the overwrite behaviour the spec describes. -/
def ExportsTable.register (t : ExportsTable) (mfa : MFA) (p : InstrPtr) : ExportsTable :=
  (mfa, p) :: t

/-- Modelled from the spec: `resolve(mfa) -> Option<entry_point>`; absence
is reported as `none`, never raised. -/
def ExportsTable.resolve (t : ExportsTable) (mfa : MFA) : Option InstrPtr :=
  match t with
  | [] => none
  | b :: rest => if b.fst = mfa then some b.snd else ExportsTable.resolve rest mfa

/-- The loop body of `Module::process_exports`, recursing over the export
list.  For each export `(f, arity, label)` it forms
`mfa = MFA(self.name, f, arity)`; unless `bif::is_bif(&mfa)` holds it
registers `InstrPtr { module, ptr: funs[&(f, arity)] }`.  The `funs`
index panics when the key is missing: that is the `none` outcome.
`bif::is_bif` is external; it is passed in as the predicate `is_bif`. -/
def registerExportList (is_bif : MFA → Bool) (m : Module) :
    List MFA → ExportsTable → Option ExportsTable
  | [], t => some t
  | ex :: rest, t =>
    let mfa : MFA := ⟨m.name, ex.c0, ex.c1⟩
    if is_bif mfa then
      registerExportList is_bif m rest t
    else
      match lookupFuns m.funs (ex.c0, ex.c1) with
      | some off => registerExportList is_bif m rest (ExportsTable.register t mfa ⟨m, off⟩)
      | none => none

/-- Rust: `Module::process_exports(&self, exports: &mut ExportsTable)`.
Returns the updated table, or `none` when the `funs[&(f, arity)]` index
panics. -/
def Module.process_exports (m : Module) (is_bif : MFA → Bool) (t : ExportsTable) :
    Option ExportsTable :=
  registerExportList is_bif m m.exports t

/-- Modelled from the spec: the Module Registry's name→module map.  The
newest binding for a name supersedes older ones. -/
abbrev Registry := List (Nat × Module)

/-- Modelled from the spec: `add_module` makes the argument the resident
module for its name, superseding any prior module of the same name. -/
def Registry.add_module (r : Registry) (name : Nat) (m : Module) : Registry :=
  (name, m) :: r

/-- Modelled from the spec: `lookup(name) -> Option<ModuleHandle>`, the
current resident module for a name. -/
def Registry.lookup_module (r : Registry) (name : Nat) : Option Module :=
  match r with
  | [] => none
  | b :: rest => if b.fst = name then some b.snd else Registry.lookup_module rest name

/-- Rust: `std::io::Error`, the only error type in `load_module`'s
signature.  Only its identity matters here. -/
structure IoError where
  code : Nat
deriving DecidableEq, Repr

/-- The shared state of `vm: &Machine` that this code touches:
`vm.modules` (the registry, behind a mutex) and `vm.exports` (the exports
table, behind a rwlock). -/
structure VMState where
  modules : Registry
  exports : ExportsTable
deriving DecidableEq, Repr

/-- Outcome of `load_module`: `ok` mirrors `Ok(module as *const Module)`
together with the updated VM state, `err` mirrors `Err(io_error)`, and
`panicked` models the `funs` index panic inside `process_exports`. -/
inductive LoadResult where
  | ok (m : Module) (st : VMState)
  | err (e : IoError) (st : VMState)
  | panicked
deriving DecidableEq, Repr

/-- Rust: `load_module(vm, path) -> Result<*const Module, std::io::Error>`.
`registry.parse_module(path)` is external (decoder plus registry insert);
it is modelled from the spec by its result, passed in as
`parsed : Except IoError Module`: an `Except.ok` module is installed into
the registry (spec §4.3 step 2) and then `process_exports` runs on it;
an `Except.error` is returned unchanged, touching nothing. -/
def load_module (is_bif : MFA → Bool) (st : VMState) (parsed : Except IoError Module) :
    LoadResult :=
  match parsed with
  | .error e => .err e st
  | .ok m =>
    let st1 : VMState := { st with modules := Registry.add_module st.modules m.name m }
    match Module.process_exports m is_bif st1.exports with
    | some t => .ok m { st1 with exports := t }
    | none => .panicked

/-- Rust: `finish_loading_modules(vm, modules)`.  For each module of the
batch in order: lock the registry, `add_module`, lock the exports table,
`process_exports` — install and export registration are interleaved per
module.  `none` models a `funs` index panic propagating out. -/
def finish_loading_modules (is_bif : MFA → Bool) (st : VMState) :
    List Module → Option VMState
  | [] => some st
  | m :: rest =>
    let st1 : VMState := { st with modules := Registry.add_module st.modules m.name m }
    match Module.process_exports m is_bif st1.exports with
    | some t => finish_loading_modules is_bif { st1 with exports := t } rest
    | none => none

/-- Events of the install pipeline, used to state ordering properties.
`runOnLoad` is never emitted by the embedded code — the source never
consults the `on_load` field — but having the constructor lets the
absence of hook execution be stated. -/
inductive LoadEvent where
  | installModule (name : Nat)
  | registerExport (mfa : MFA)
  | runOnLoad (hook : Nat)
deriving DecidableEq, Repr

def LoadEvent.isInstall : LoadEvent → Bool
  | .installModule _ => true
  | _ => false

def LoadEvent.isRegister : LoadEvent → Bool
  | .registerExport _ => true
  | _ => false

def LoadEvent.isRunOnLoad : LoadEvent → Bool
  | .runOnLoad _ => true
  | _ => false

/-- The sequence of `register` calls `process_exports` makes on an export
list, cut short at a `funs` index panic. -/
def registerEvents (is_bif : MFA → Bool) (m : Module) : List MFA → List LoadEvent
  | [] => []
  | ex :: rest =>
    let mfa : MFA := ⟨m.name, ex.c0, ex.c1⟩
    if is_bif mfa then
      registerEvents is_bif m rest
    else
      match lookupFuns m.funs (ex.c0, ex.c1) with
      | some _ => .registerExport mfa :: registerEvents is_bif m rest
      | none => []

/-- Whether `process_exports` completes without panicking on this module:
every export is either bif-overridden or has a `funs` entry. -/
def exportsOk (is_bif : MFA → Bool) (m : Module) : Bool :=
  m.exports.all fun ex =>
    is_bif ⟨m.name, ex.c0, ex.c1⟩ || (lookupFuns m.funs (ex.c0, ex.c1)).isSome

/-- Event trace of `load_module`: nothing on a parse error, otherwise the
registry install followed by the export registrations. -/
def loadEvents (is_bif : MFA → Bool) (parsed : Except IoError Module) : List LoadEvent :=
  match parsed with
  | .error _ => []
  | .ok m => .installModule m.name :: registerEvents is_bif m m.exports

/-- Event trace of `finish_loading_modules`: per module, the install then
that module's registrations; a panic cuts the batch short. -/
def finishEvents (is_bif : MFA → Bool) : List Module → List LoadEvent
  | [] => []
  | m :: rest =>
    .installModule m.name ::
      (registerEvents is_bif m m.exports ++
        if exportsOk is_bif m then finishEvents is_bif rest else [])

/-- A trace is two-phase when no install event follows any register
event: all installs happen strictly before all registrations. -/
def twoPhase : List LoadEvent → Bool
  | [] => true
  | e :: rest =>
    (if e.isRegister then rest.all fun x => !x.isInstall else true) && twoPhase rest

/-! Concrete instances used by examples, witnesses and counterexamples.
Atom ids: 1 = math, 2 = add, 3 = sub, 4 = mul; further ids are arbitrary. -/

/-- A bif registry with no native overrides. -/
def bifNone : MFA → Bool := fun _ => false

/-- A bif registry that overrides exactly `math:add/2`. -/
def bifAddOnly : MFA → Bool := fun mfa => decide (mfa = ⟨1, 2, 2⟩)

/-- The empty VM state: no resident modules, empty exports table. -/
def st0 : VMState := ⟨[], []⟩

/-- The spec's example module: `math` exporting `add/2` at offset 10 and
`sub/2` at offset 20 (export labels are arbitrary). -/
def mathModule : Module :=
  { imports := []
    exports := [⟨2, 2, 100⟩, ⟨3, 2, 101⟩]
    lambdas := []
    funs := [((2, 2), 10), ((3, 2), 20)]
    name := 1
    on_load := none }

/-- The VM state after loading `mathModule` into `st0` with no overrides:
`add/2` is registered first, then `sub/2` is prepended. -/
def mathInstalled : VMState :=
  ⟨[(1, mathModule)],
   [(⟨1, 3, 2⟩, ⟨mathModule, 20⟩), (⟨1, 2, 2⟩, ⟨mathModule, 10⟩)]⟩

/-- An image violating the exports-have-bodies invariant: it exports
function 6 at arity 1 but `funs` is empty. -/
def badModule : Module :=
  { imports := [], exports := [⟨6, 1, 0⟩], lambdas := [], funs := []
    name := 5, on_load := none }

/-- Another invariant-violating image: its first export has a body, its
second (function 9, arity 1) has none. -/
def badModule2 : Module :=
  { imports := [], exports := [⟨8, 2, 0⟩, ⟨9, 1, 3⟩], lambdas := []
    funs := [((8, 2), 4)], name := 7, on_load := none }

/-- A valid image whose `on_load` hook is set (hook atom 9): it exports
function 2 at arity 1 with body at offset 30. -/
def onloadModule : Module :=
  { imports := [], exports := [⟨2, 1, 0⟩], lambdas := [], funs := [((2, 1), 30)]
    name := 4, on_load := some 9 }

/-- Batch member A: module 11 exporting function 12 at arity 0, offset 1. -/
def modA : Module :=
  { imports := [], exports := [⟨12, 0, 0⟩], lambdas := [], funs := [((12, 0), 1)]
    name := 11, on_load := none }

/-- Batch member B: module 13 exporting function 14 at arity 0, offset 2. -/
def modB : Module :=
  { imports := [], exports := [⟨14, 0, 0⟩], lambdas := [], funs := [((14, 0), 2)]
    name := 13, on_load := none }

/-- The VM state after loading `mathModule` into `st0` when `add/2` is
bif-overridden: only `sub/2` is published. -/
def mathBifInstalled : VMState :=
  ⟨[(1, mathModule)], [(⟨1, 3, 2⟩, ⟨mathModule, 20⟩)]⟩

/-- Version 1 of module 21: exports function 22 at arity 1, offset 5. -/
def modV1 : Module :=
  { imports := [], exports := [⟨22, 1, 0⟩], lambdas := [], funs := [((22, 1), 5)]
    name := 21, on_load := none }

/-- Version 2 of module 21: the same export, now at offset 50. -/
def modV2 : Module :=
  { imports := [], exports := [⟨22, 1, 0⟩], lambdas := [], funs := [((22, 1), 50)]
    name := 21, on_load := none }

/-- The VM state after loading `modV1` into `st0`. -/
def stV1 : VMState :=
  ⟨[(21, modV1)], [(⟨21, 22, 1⟩, ⟨modV1, 5⟩)]⟩

/-- The VM state after then loading `modV2` over `stV1`: the v2 binding
for `21:22/1` shadows the v1 binding. -/
def stV2 : VMState :=
  ⟨[(21, modV2), (21, modV1)],
   [(⟨21, 22, 1⟩, ⟨modV2, 50⟩), (⟨21, 22, 1⟩, ⟨modV1, 5⟩)]⟩

/-! Lemmas about the exports table and `process_exports`. -/

@[simp] theorem resolve_nil (k : MFA) : ExportsTable.resolve [] k = none := rfl

@[simp] theorem resolve_cons (b : MFA × InstrPtr) (t : ExportsTable) (k : MFA) :
    ExportsTable.resolve (b :: t) k =
      if b.fst = k then some b.snd else ExportsTable.resolve t k := rfl

theorem resolve_register_self (t : ExportsTable) (k : MFA) (p : InstrPtr) :
    ExportsTable.resolve (ExportsTable.register t k p) k = some p := by
  simp [ExportsTable.register]

theorem resolve_register_ne (t : ExportsTable) (k k' : MFA) (p : InstrPtr)
    (h : k' ≠ k) :
    ExportsTable.resolve (ExportsTable.register t k p) k' = ExportsTable.resolve t k' := by
  simp only [ExportsTable.register, resolve_cons]
  rw [if_neg (fun hh : k = k' => h hh.symm)]

/-- Characterization of the table produced by the export-registration loop:
a key hit by some non-overridden export of `m` resolves to `m`'s `funs`
offset; every other key is untouched. -/
theorem registerExportList_resolve (is_bif : MFA → Bool) (m : Module) :
    ∀ (exs : List MFA) (t t' : ExportsTable),
      registerExportList is_bif m exs t = some t' → ∀ k : MFA,
      ExportsTable.resolve t' k =
        if exs.any (fun ex => decide (k = ⟨m.name, ex.c0, ex.c1⟩) && !is_bif k) then
          Option.map (fun off => InstrPtr.mk m off) (lookupFuns m.funs (k.c1, k.c2))
        else ExportsTable.resolve t k := by
  intro exs
  induction exs with
  | nil =>
    intro t t' h k
    cases h
    simp
  | cons ex rest ih =>
    intro t t' h k
    simp only [registerExportList] at h
    cases hbif : is_bif ⟨m.name, ex.c0, ex.c1⟩ with
    | true =>
      simp only [hbif, if_true] at h
      rw [ih t t' h k]
      have hhead : (decide (k = (⟨m.name, ex.c0, ex.c1⟩ : MFA)) && !is_bif k) = false := by
        by_cases hk : k = (⟨m.name, ex.c0, ex.c1⟩ : MFA)
        · subst hk; simp [hbif]
        · simp [hk]
      simp [List.any_cons, hhead]
    | false =>
      simp only [hbif, Bool.false_eq_true, if_false] at h
      cases hlook : lookupFuns m.funs (ex.c0, ex.c1) with
      | none => simp [hlook] at h
      | some off =>
        simp only [hlook] at h
        rw [ih _ t' h k]
        cases hrest :
            rest.any (fun ex => decide (k = (⟨m.name, ex.c0, ex.c1⟩ : MFA)) && !is_bif k) with
        | true => simp [List.any_cons, hrest]
        | false =>
          by_cases hk : k = (⟨m.name, ex.c0, ex.c1⟩ : MFA)
          · have hhead : (decide (k = (⟨m.name, ex.c0, ex.c1⟩ : MFA)) && !is_bif k) = true := by
              simp [hk, hbif]
            have hc2 : ((ex :: rest).any
                (fun ex => decide (k = (⟨m.name, ex.c0, ex.c1⟩ : MFA)) && !is_bif k)) = true := by
              simp [List.any_cons, hhead]
            rw [if_neg Bool.false_ne_true, if_pos hc2, hk, resolve_register_self]
            show some (InstrPtr.mk m off) =
              Option.map (fun off => InstrPtr.mk m off) (lookupFuns m.funs (ex.c0, ex.c1))
            rw [hlook]
            rfl
          · have hhead : (decide (k = (⟨m.name, ex.c0, ex.c1⟩ : MFA)) && !is_bif k) = false := by
              simp [hk]
            have hc2 : ¬ (((ex :: rest).any
                (fun ex => decide (k = (⟨m.name, ex.c0, ex.c1⟩ : MFA)) && !is_bif k)) = true) := by
              simp only [List.any_cons, hhead, hrest, Bool.or_self]
              simp
            rw [if_neg Bool.false_ne_true, if_neg hc2]
            exact resolve_register_ne t _ k _ hk

theorem registerExportList_isSome (is_bif : MFA → Bool) (m : Module) :
    ∀ (exs : List MFA) (t : ExportsTable),
      (registerExportList is_bif m exs t).isSome =
        exs.all (fun ex =>
          is_bif ⟨m.name, ex.c0, ex.c1⟩ || (lookupFuns m.funs (ex.c0, ex.c1)).isSome) := by
  intro exs
  induction exs with
  | nil => intro t; simp [registerExportList]
  | cons ex rest ih =>
    intro t
    simp only [registerExportList]
    cases hbif : is_bif ⟨m.name, ex.c0, ex.c1⟩ with
    | true => simp [List.all_cons, hbif, ih]
    | false =>
      cases hlook : lookupFuns m.funs (ex.c0, ex.c1) with
      | none => simp [List.all_cons, hbif, hlook]
      | some off => simp [List.all_cons, hbif, hlook, ih]

theorem process_exports_isSome (is_bif : MFA → Bool) (m : Module) (t : ExportsTable) :
    (Module.process_exports m is_bif t).isSome = exportsOk is_bif m :=
  registerExportList_isSome is_bif m m.exports t

theorem exportsOk_of_process_some (is_bif : MFA → Bool) (m : Module)
    (t t' : ExportsTable) (h : Module.process_exports m is_bif t = some t') :
    exportsOk is_bif m = true := by
  have h2 := process_exports_isSome is_bif m t
  rw [h] at h2
  simpa using h2.symm

theorem process_some_of_exportsOk (is_bif : MFA → Bool) (m : Module)
    (h : exportsOk is_bif m = true) (t : ExportsTable) :
    ∃ t', Module.process_exports m is_bif t = some t' := by
  have := process_exports_isSome is_bif m t
  rw [h] at this
  exact Option.isSome_iff_exists.mp this

theorem process_none_of_bad_export (is_bif : MFA → Bool) (m : Module)
    (t : ExportsTable)
    (h : ∃ ex ∈ m.exports, is_bif ⟨m.name, ex.c0, ex.c1⟩ = false ∧
      lookupFuns m.funs (ex.c0, ex.c1) = none) :
    Module.process_exports m is_bif t = none := by
  obtain ⟨ex, hex, hbif, hlook⟩ := h
  have hok : exportsOk is_bif m = false := by
    rw [exportsOk, List.all_eq_false]
    exact ⟨ex, hex, by simp [hbif, hlook]⟩
  have := process_exports_isSome is_bif m t
  rw [hok] at this
  exact Option.not_isSome_iff_eq_none.mp (by simp [this])

/-- A key overridden in the bif registry is never touched by
`process_exports`. -/
theorem process_resolve_bif (is_bif : MFA → Bool) (m : Module)
    (t t' : ExportsTable) (k : MFA) (hb : is_bif k = true)
    (h : Module.process_exports m is_bif t = some t') :
    ExportsTable.resolve t' k = ExportsTable.resolve t k := by
  rw [registerExportList_resolve is_bif m m.exports t t' h k]
  rw [if_neg]
  simp [List.any_eq_true, hb]

/-- Every non-overridden export of a successfully processed module
resolves to the offset recorded in `funs`. -/
theorem process_export_resolve (is_bif : MFA → Bool) (m : Module)
    (t t' : ExportsTable) (ex : MFA)
    (h : Module.process_exports m is_bif t = some t')
    (hex : ex ∈ m.exports) (hb : is_bif ⟨m.name, ex.c0, ex.c1⟩ = false) :
    ∃ off, lookupFuns m.funs (ex.c0, ex.c1) = some off ∧
      ExportsTable.resolve t' ⟨m.name, ex.c0, ex.c1⟩ = some ⟨m, off⟩ := by
  have hok := exportsOk_of_process_some is_bif m t t' h
  rw [exportsOk, List.all_eq_true] at hok
  have hx := hok ex hex
  rw [hb] at hx
  simp only [Bool.false_or] at hx
  obtain ⟨off, hlook⟩ := Option.isSome_iff_exists.mp hx
  refine ⟨off, hlook, ?_⟩
  rw [registerExportList_resolve is_bif m m.exports t t' h ⟨m.name, ex.c0, ex.c1⟩]
  rw [if_pos]
  · show Option.map _ (lookupFuns m.funs (ex.c0, ex.c1)) = _
    rw [hlook]
    rfl
  · rw [List.any_eq_true]
    exact ⟨ex, hex, by simp [hb]⟩

/-! Lemmas about `finish_loading_modules` and the event traces. -/

/-- A bif-overridden key is untouched by a whole successful batch load. -/
theorem finish_resolve_bif (is_bif : MFA → Bool) (k : MFA) (hb : is_bif k = true) :
    ∀ (mods : List Module) (st st' : VMState),
      finish_loading_modules is_bif st mods = some st' →
      ExportsTable.resolve st'.exports k = ExportsTable.resolve st.exports k := by
  intro mods
  induction mods with
  | nil =>
    intro st st' h
    cases h
    rfl
  | cons m rest ih =>
    intro st st' h
    simp only [finish_loading_modules] at h
    cases hp : Module.process_exports m is_bif st.exports with
    | none => rw [hp] at h; cases h
    | some t =>
      rw [hp] at h
      have h1 := ih _ st' h
      rw [h1]
      exact process_resolve_bif is_bif m st.exports t k hb hp

/-- A batch whose modules all satisfy the export invariant loads without
panicking. -/
theorem finish_some_of_all_ok (is_bif : MFA → Bool) :
    ∀ (mods : List Module), mods.all (exportsOk is_bif) = true →
      ∀ st : VMState, ∃ st', finish_loading_modules is_bif st mods = some st' := by
  intro mods
  induction mods with
  | nil => intro _ st; exact ⟨st, rfl⟩
  | cons m rest ih =>
    intro hall st
    rw [List.all_cons] at hall
    have hm : exportsOk is_bif m = true := by
      cases hx : exportsOk is_bif m with
      | true => rfl
      | false => rw [hx] at hall; simp at hall
    have hrest : rest.all (exportsOk is_bif) = true := by
      cases hx : rest.all (exportsOk is_bif) with
      | true => rfl
      | false => rw [hx] at hall; simp at hall
    obtain ⟨t, hp⟩ := process_some_of_exportsOk is_bif m hm st.exports
    obtain ⟨st', hfin⟩ := ih hrest
      ⟨Registry.add_module st.modules m.name m, t⟩
    refine ⟨st', ?_⟩
    simp only [finish_loading_modules, hp]
    exact hfin

/-- With every module of the batch satisfying the export invariant, the
batch trace is, module by module in batch order, that module's install
immediately followed by that module's export registrations. -/
theorem finishEvents_eq_interleaved (is_bif : MFA → Bool) :
    ∀ (mods : List Module), mods.all (exportsOk is_bif) = true →
      finishEvents is_bif mods =
        mods.flatMap (fun m =>
          LoadEvent.installModule m.name :: registerEvents is_bif m m.exports) := by
  intro mods
  induction mods with
  | nil => intro _; rfl
  | cons m rest ih =>
    intro hall
    rw [List.all_cons] at hall
    have hm : exportsOk is_bif m = true := by
      cases hx : exportsOk is_bif m with
      | true => rfl
      | false => rw [hx] at hall; simp at hall
    have hrest : rest.all (exportsOk is_bif) = true := by
      cases hx : rest.all (exportsOk is_bif) with
      | true => rfl
      | false => rw [hx] at hall; simp at hall
    simp [finishEvents, hm, ih hrest, List.flatMap_cons]

/-- The registration loop emits only `registerExport` events. -/
theorem registerEvents_all_register (is_bif : MFA → Bool) (m : Module) :
    ∀ exs : List MFA,
      (registerEvents is_bif m exs).all (fun e => e.isRegister) = true := by
  intro exs
  induction exs with
  | nil => rfl
  | cons ex rest ih =>
    simp only [registerEvents]
    cases hbif : is_bif ⟨m.name, ex.c0, ex.c1⟩ with
    | true => simpa [hbif] using ih
    | false =>
      cases hlook : lookupFuns m.funs (ex.c0, ex.c1) with
      | none => simp [hbif, hlook]
      | some off => simpa [hbif, hlook, LoadEvent.isRegister] using ih

/-- No event of the single-module load pipeline is an `on_load` hook run. -/
theorem loadEvents_no_onload (is_bif : MFA → Bool) (parsed : Except IoError Module) :
    (loadEvents is_bif parsed).all (fun e => !e.isRunOnLoad) = true := by
  cases parsed with
  | error e => rfl
  | ok m =>
    simp only [loadEvents, List.all_cons]
    rw [Bool.and_eq_true]
    have h := registerEvents_all_register is_bif m m.exports
    rw [List.all_eq_true] at h
    refine ⟨rfl, ?_⟩
    rw [List.all_eq_true]
    intro e he
    have := h e he
    cases e with
    | installModule _ => simp [LoadEvent.isRegister] at this
    | registerExport _ => rfl
    | runOnLoad _ => simp [LoadEvent.isRegister] at this

/-- No event of the batch load pipeline is an `on_load` hook run. -/
theorem finishEvents_no_onload (is_bif : MFA → Bool) :
    ∀ mods : List Module,
      (finishEvents is_bif mods).all (fun e => !e.isRunOnLoad) = true := by
  intro mods
  induction mods with
  | nil => rfl
  | cons m rest ih =>
    simp only [finishEvents, List.all_cons, List.all_append]
    rw [Bool.and_eq_true, Bool.and_eq_true]
    have h := registerEvents_all_register is_bif m m.exports
    rw [List.all_eq_true] at h
    refine ⟨rfl, ?_, ?_⟩
    · rw [List.all_eq_true]
      intro e he
      have := h e he
      cases e with
      | installModule _ => simp [LoadEvent.isRegister] at this
      | registerExport _ => rfl
      | runOnLoad _ => simp [LoadEvent.isRegister] at this
    · cases exportsOk is_bif m with
      | true => simpa using ih
      | false => rfl

/-! Claim theorems. -/

/-- C1 counterexample: loading `badModule`, whose export `6/1` has no
entry in `funs`, hits the `HashMap` index in `process_exports` and
panics.  The claim as written — the operation fails with
`LoadError::UnresolvedExport` and does not panic — is therefore false at
this input: no error value of any kind is produced. -/
theorem c1_unresolved_export_panics :
    load_module bifNone st0 (.ok badModule) = .panicked := by decide

/-- C1 amended: for every image whose exports list contains a
(function, arity) pair that is not bif-overridden and has no matching
entry in funs, installation dies with a panic at the `funs` map index in
`process_exports`; no `LoadError` value is produced (the result type has
none). -/
theorem c1_bad_export_load_panics (is_bif : MFA → Bool) (st : VMState) (m : Module)
    (h : ∃ ex ∈ m.exports, is_bif ⟨m.name, ex.c0, ex.c1⟩ = false ∧
      lookupFuns m.funs (ex.c0, ex.c1) = none) :
    load_module is_bif st (.ok m) = .panicked := by
  obtain ⟨reg, tbl⟩ := st
  have hp := process_none_of_bad_export is_bif m tbl h
  simp [load_module, hp]

/-- C1 witness: the amended statement applied to `badModule` over a
non-empty prior state. -/
theorem c1_bad_export_load_panics_witness :
    load_module bifNone mathInstalled (.ok badModule) = .panicked :=
  c1_bad_export_load_panics bifNone mathInstalled badModule
    ⟨⟨6, 1, 0⟩, by decide, by decide, by decide⟩

/-- C2 counterexample: for the batch `[modA, modB]` the pipeline emits
modA's export registration before modB's install, so the claimed strict
two-phase order (all batch installs before any export registration) is
false. -/
theorem c2_batch_not_two_phase :
    finishEvents bifNone [modA, modB] =
      [.installModule 11, .registerExport ⟨11, 12, 0⟩,
       .installModule 13, .registerExport ⟨13, 14, 0⟩] ∧
    twoPhase (finishEvents bifNone [modA, modB]) = false := by decide

/-- C2 amended: `finish_loading_modules` processes the batch one module at
a time — each module is installed into the Registry and its exports are
registered immediately, before the next batch member is installed — and on
a batch whose members all satisfy the export invariant it completes
without panicking. -/
theorem c2_finish_interleaves_per_module (is_bif : MFA → Bool) (mods : List Module)
    (h : mods.all (exportsOk is_bif) = true) (st : VMState) :
    finishEvents is_bif mods =
      mods.flatMap (fun m =>
        LoadEvent.installModule m.name :: registerEvents is_bif m m.exports) ∧
    ∃ st', finish_loading_modules is_bif st mods = some st' :=
  ⟨finishEvents_eq_interleaved is_bif mods h, finish_some_of_all_ok is_bif mods h st⟩

/-- C2 witness: the amended statement applied to the batch `[modA, modB]`. -/
theorem c2_finish_interleaves_witness :
    finishEvents bifNone [modA, modB] =
      [modA, modB].flatMap (fun m =>
        LoadEvent.installModule m.name :: registerEvents bifNone m m.exports) ∧
    ∃ st', finish_loading_modules bifNone st0 [modA, modB] = some st' :=
  c2_finish_interleaves_per_module bifNone [modA, modB] (by decide) st0

/-- C3: for every MFA on which `is_bif` holds, no install of any batch, in
any order, registers a bytecode entry point under it: its resolution after
the batch is exactly its resolution before, and in particular it stays
unresolved if it was unresolved. -/
theorem c3_override_never_published (is_bif : MFA → Bool) (k : MFA)
    (hb : is_bif k = true) (mods : List Module) (st st' : VMState)
    (h : finish_loading_modules is_bif st mods = some st') :
    ExportsTable.resolve st'.exports k = ExportsTable.resolve st.exports k ∧
    (ExportsTable.resolve st.exports k = none →
      ExportsTable.resolve st'.exports k = none) := by
  have h1 := finish_resolve_bif is_bif k hb mods st st' h
  exact ⟨h1, fun h0 => by rw [h1, h0]⟩

/-- C3 witness: with `add/2` overridden, installing `mathModule` leaves
`math:add/2` unresolved. -/
theorem c3_override_witness :
    ExportsTable.resolve mathBifInstalled.exports ⟨1, 2, 2⟩ =
      ExportsTable.resolve st0.exports ⟨1, 2, 2⟩ ∧
    (ExportsTable.resolve st0.exports ⟨1, 2, 2⟩ = none →
      ExportsTable.resolve mathBifInstalled.exports ⟨1, 2, 2⟩ = none) :=
  c3_override_never_published bifAddOnly ⟨1, 2, 2⟩ (by decide) [mathModule] st0
    mathBifInstalled (by decide)

/-- C4 counterexample: `onloadModule` has its `on_load` hook set (atom 9),
yet a single load makes it resident and publishes its export at once — no
hook event is ever emitted, so exports are published without the hook
having reported success, contradicting the claimed gating. -/
theorem c4_onload_gating_fails :
    load_module bifNone st0 (.ok onloadModule) =
      .ok onloadModule ⟨[(4, onloadModule)], [(⟨4, 2, 1⟩, ⟨onloadModule, 30⟩)]⟩ ∧
    ExportsTable.resolve [(⟨4, 2, 1⟩, ⟨onloadModule, 30⟩)] ⟨4, 2, 1⟩ =
      some ⟨onloadModule, 30⟩ ∧
    Registry.lookup_module [(4, onloadModule)] 4 = some onloadModule ∧
    loadEvents bifNone (.ok onloadModule) =
      [.installModule 4, .registerExport ⟨4, 2, 1⟩] := by decide

/-- C4 amended: the install pipeline never consults `on_load`: neither
load path ever emits a hook-run event, and a module whose `on_load` is set
is installed and has its exports published immediately, exactly as if the
hook were absent. -/
theorem c4_onload_not_consulted (is_bif : MFA → Bool) :
    (∀ parsed : Except IoError Module,
      (loadEvents is_bif parsed).all (fun e => !e.isRunOnLoad) = true) ∧
    (∀ mods : List Module,
      (finishEvents is_bif mods).all (fun e => !e.isRunOnLoad) = true) ∧
    (∀ (st : VMState) (m : Module) (hook : Nat) (t' : ExportsTable),
      m.on_load = some hook →
      Module.process_exports m is_bif st.exports = some t' →
      load_module is_bif st (.ok m) =
        .ok m ⟨Registry.add_module st.modules m.name m, t'⟩) := by
  refine ⟨loadEvents_no_onload is_bif, finishEvents_no_onload is_bif, ?_⟩
  intro st m hook t' _ hp
  obtain ⟨reg, tbl⟩ := st
  simp only [load_module]
  rw [hp]

/-- C4 witness: the amended statement applied to `onloadModule`. -/
theorem c4_onload_not_consulted_witness :
    load_module bifNone st0 (.ok onloadModule) =
      .ok onloadModule ⟨Registry.add_module st0.modules onloadModule.name onloadModule,
        [(⟨4, 2, 1⟩, ⟨onloadModule, 30⟩)]⟩ :=
  (c4_onload_not_consulted bifNone).2.2 st0 onloadModule 9
    [(⟨4, 2, 1⟩, ⟨onloadModule, 30⟩)] (by decide) (by decide)

/-- C5: installing version 2 of a module after version 1 makes every
non-overridden version-2 export resolve to the version-2 entry point: the
version-2 module reference paired with the offset from version 2's funs
map. -/
theorem c5_hot_reload_v2_wins (is_bif : MFA → Bool) (st st1 st2 : VMState)
    (m1 m2 : Module) (hname : m1.name = m2.name)
    (h1 : load_module is_bif st (.ok m1) = .ok m1 st1)
    (h2 : load_module is_bif st1 (.ok m2) = .ok m2 st2)
    (ex : MFA) (hex : ex ∈ m2.exports)
    (hb : is_bif ⟨m2.name, ex.c0, ex.c1⟩ = false) :
    ∃ off, lookupFuns m2.funs (ex.c0, ex.c1) = some off ∧
      ExportsTable.resolve st2.exports ⟨m2.name, ex.c0, ex.c1⟩ = some ⟨m2, off⟩ := by
  obtain ⟨reg1, tbl1⟩ := st1
  simp only [load_module] at h2
  cases hp : Module.process_exports m2 is_bif tbl1 with
  | none => rw [hp] at h2; cases h2
  | some t =>
    rw [hp] at h2
    cases h2
    exact process_export_resolve is_bif m2 tbl1 t ex hp hex hb

/-- C5 witness: loading `modV2` over `modV1` makes `21:22/1` resolve to
version 2's entry point (offset 50 from v2's funs). -/
theorem c5_hot_reload_witness :
    ∃ off, lookupFuns modV2.funs (22, 1) = some off ∧
      ExportsTable.resolve stV2.exports ⟨21, 22, 1⟩ = some ⟨modV2, off⟩ :=
  c5_hot_reload_v2_wins bifNone st0 stV1 stV2 modV1 modV2 rfl (by decide) (by decide)
    ⟨22, 1, 0⟩ (by decide) (by decide)

/-- C7 counterexample: `badModule2`'s second export has no matching body,
and `load_module` panics rather than returning a distinct
`LoadError::UnresolvedExport` value — the source's result type,
`Result<*const Module, std::io::Error>`, has no such variant. -/
theorem c7_no_distinct_unresolved_error :
    load_module bifNone st0 (.ok badModule2) = .panicked := by decide

/-- C7 amended: `load_module` returns
`Result<*const Module, std::io::Error>`: an unreadable module file is
reported as its io error with the state untouched, while an export with no
matching body (and no bif override) is not reported as an error value at
all — it panics in `process_exports`. -/
theorem c7_error_taxonomy (is_bif : MFA → Bool) :
    (∀ (st : VMState) (e : IoError),
      load_module is_bif st (.error e) = .err e st) ∧
    (∀ (st : VMState) (m : Module), exportsOk is_bif m = false →
      load_module is_bif st (.ok m) = .panicked) := by
  constructor
  · intro st e
    rfl
  · intro st m h
    obtain ⟨reg, tbl⟩ := st
    have hp : Module.process_exports m is_bif tbl = none := by
      have h2 := process_exports_isSome is_bif m tbl
      rw [h] at h2
      exact Option.not_isSome_iff_eq_none.mp (by simp [h2])
    simp [load_module, hp]

/-- C7 witness: the amended statement at an unreadable file (io error 3)
and at `badModule2`. -/
theorem c7_error_taxonomy_witness :
    load_module bifNone st0 (.error ⟨3⟩) = .err ⟨3⟩ st0 ∧
    load_module bifNone st0 (.ok badModule2) = .panicked :=
  ⟨(c7_error_taxonomy bifNone).1 st0 ⟨3⟩,
   (c7_error_taxonomy bifNone).2 st0 badModule2 (by decide)⟩

/-- C8: for every non-overridden export of a successfully processed
module, the published entry point carries the offset recorded in the
module's funs map for (function, arity) — funs, not the export record's
own third (label) component, is the source of truth. -/
theorem c8_funs_is_source_of_truth (is_bif : MFA → Bool) (m : Module)
    (t t' : ExportsTable) (ex : MFA)
    (h : Module.process_exports m is_bif t = some t')
    (hex : ex ∈ m.exports) (hb : is_bif ⟨m.name, ex.c0, ex.c1⟩ = false) :
    ∃ off, lookupFuns m.funs (ex.c0, ex.c1) = some off ∧
      ExportsTable.resolve t' ⟨m.name, ex.c0, ex.c1⟩ = some ⟨m, off⟩ :=
  process_export_resolve is_bif m t t' ex h hex hb

/-- C8 witness: `mathModule`'s export record for `add/2` carries label
100, but the published offset is 10, the value in funs. -/
theorem c8_funs_witness :
    ∃ off, lookupFuns mathModule.funs (2, 2) = some off ∧
      ExportsTable.resolve
        [(⟨1, 3, 2⟩, ⟨mathModule, 20⟩), (⟨1, 2, 2⟩, ⟨mathModule, 10⟩)] ⟨1, 2, 2⟩ =
        some ⟨mathModule, off⟩ :=
  c8_funs_is_source_of_truth bifNone mathModule []
    [(⟨1, 3, 2⟩, ⟨mathModule, 20⟩), (⟨1, 2, 2⟩, ⟨mathModule, 10⟩)]
    ⟨2, 2, 100⟩ (by decide) (by decide) (by decide)

/-- C9: the spec's worked example — after installing `math` (add/2 at 10,
sub/2 at 20, no overrides) into the empty state, `resolve((math,add,2))`
is `some (math, 10)` and `resolve((math,mul,2))` is `none`: absence is an
empty `Option` result, not a raised `UndefinedFunction`. -/
theorem c9_math_example :
    load_module bifNone st0 (.ok mathModule) = .ok mathModule mathInstalled ∧
    ExportsTable.resolve mathInstalled.exports ⟨1, 2, 2⟩ = some ⟨mathModule, 10⟩ ∧
    ExportsTable.resolve mathInstalled.exports ⟨1, 4, 2⟩ = none := by decide

/-- C10: whenever `load_module` returns an error, the VM state it reports
is exactly the input state — the exports table (and the registry) gain and
lose nothing, because registration runs only on the parse's success
path. -/
theorem c10_error_leaves_state_unchanged (is_bif : MFA → Bool)
    (st st' : VMState) (parsed : Except IoError Module) (e : IoError)
    (h : load_module is_bif st parsed = .err e st') :
    st'.exports = st.exports ∧ st'.modules = st.modules := by
  cases parsed with
  | error e0 =>
    simp only [load_module] at h
    cases h
    exact ⟨rfl, rfl⟩
  | ok m =>
    obtain ⟨reg, tbl⟩ := st
    simp only [load_module] at h
    cases hp : Module.process_exports m is_bif tbl with
    | none => rw [hp] at h; cases h
    | some t => rw [hp] at h; cases h

/-- C10 witness: a failed parse over a populated state reports that state
unchanged. -/
theorem c10_error_unchanged_witness :
    mathInstalled.exports = mathInstalled.exports ∧
    mathInstalled.modules = mathInstalled.modules :=
  c10_error_leaves_state_unchanged bifNone mathInstalled mathInstalled
    (.error ⟨7⟩) ⟨7⟩ (by decide)

end Enigma
